import Mathlib

/-!
Verification of the NFL survivor-pool frontend (`SurvivorUI`).

The React component's pure helpers are embedded as Lean functions:
JavaScript numbers appearing in comparisons and arithmetic are modelled
as `Int`/`ℚ`, nullable pick cells as `Option String` (with `none` for
`null`/`undefined`), JavaScript `Set`s as duplicate-free lists in
insertion order, and the stable `Array.prototype.sort` as insertion sort.
The backend rating engine is not part of the frontend sources; the parts
of it that the properties below mention are modelled from the design
document and marked as such.
-/

/-- One row of the `/api/summary` response consumed by `fetchSummary`:
team name, win probability, popularity, expected value and the optional
future value. -/
structure WeekSummary where
  team : String
  win_prob : ℚ
  popularity : ℚ
  expected_value : ℚ
  future_value : Option ℚ
deriving DecidableEq

/-- The comparator `(a, b) => b.expected_value - a.expected_value` used by
`fetchSummary`: `a` may stay before `b` exactly when the comparator is
non-positive, i.e. `b.expected_value ≤ a.expected_value`. -/
def evDesc (a b : WeekSummary) : Prop :=
  b.expected_value ≤ a.expected_value

instance : DecidableRel evDesc := fun a b =>
  inferInstanceAs (Decidable (b.expected_value ≤ a.expected_value))

instance : IsTotal WeekSummary evDesc :=
  ⟨fun a b => le_total b.expected_value a.expected_value⟩

instance : IsTrans WeekSummary evDesc :=
  ⟨fun _ _ _ h h' => le_trans h' h⟩

/-- The sorting step of `fetchSummary`:
`[...data.summary].sort((a, b) => b.expected_value - a.expected_value)`.
`Array.prototype.sort` is stable, and a stable sort by a total preorder is
the insertion sort by that preorder. -/
def fetchSummarySort (l : List WeekSummary) : List WeekSummary :=
  List.insertionSort evDesc l

/-- The ordering the design document prescribes for the week summary:
descending expected value, ties broken by descending win probability,
then by team name. -/
def specSummaryOrder (x y : WeekSummary) : Prop :=
  x.expected_value > y.expected_value ∨
    (x.expected_value = y.expected_value ∧ x.win_prob > y.win_prob) ∨
    (x.expected_value = y.expected_value ∧ x.win_prob = y.win_prob ∧ x.team ≤ y.team)

instance : DecidableRel specSummaryOrder := fun x y =>
  inferInstanceAs (Decidable (x.expected_value > y.expected_value ∨
    (x.expected_value = y.expected_value ∧ x.win_prob > y.win_prob) ∨
    (x.expected_value = y.expected_value ∧ x.win_prob = y.win_prob ∧ x.team ≤ y.team)))

/-- "For each adjacent pair in the output" of the week summary, the
prescribed order holds. -/
def ChainSpecOrder : List WeekSummary → Prop
  | [] => True
  | [_] => True
  | x :: y :: rest => specSummaryOrder x y ∧ ChainSpecOrder (y :: rest)

def chainSpecOrderDec : (l : List WeekSummary) → Decidable (ChainSpecOrder l)
  | [] => isTrue trivial
  | [_] => isTrue trivial
  | _ :: y :: rest => @instDecidableAnd _ _ _ (chainSpecOrderDec (y :: rest))

instance : DecidablePred ChainSpecOrder := chainSpecOrderDec

/-- `parseInt(s)` for the strings arriving from the numeric inputs:
an optional sign followed by leading decimal digits; `none` models `NaN`
(no digits to parse). Radix-10 digits after the prefix are accumulated,
anything after the digit prefix is ignored, exactly as `parseInt` does. -/
def takeDigitsVal : List Char → ℕ → ℕ
  | [], acc => acc
  | c :: cs, acc => if c.isDigit then takeDigitsVal cs (acc * 10 + (c.toNat - 48)) else acc

/-- Whether the digit prefix is non-empty (otherwise `parseInt` yields `NaN`). -/
def headIsDigit : List Char → Bool
  | [] => false
  | c :: _ => c.isDigit

def parseIntStr (s : String) : Option Int :=
  match s.data with
  | '-' :: cs => if headIsDigit cs then some (-(takeDigitsVal cs 0 : Int)) else none
  | '+' :: cs => if headIsDigit cs then some (takeDigitsVal cs 0 : Int) else none
  | cs => if headIsDigit cs then some (takeDigitsVal cs 0 : Int) else none

/-- The week input's `onChange` handler:
`let val = parseInt(v); if (val > 18) val = 18; if (val < 1) val = 1; setWeek(val)`.
A `NaN` parse (`none`) propagates unchanged, since both comparisons are
false on `NaN`. -/
def weekOnChange (s : String) : Option Int :=
  match parseIntStr s with
  | none => none
  | some v =>
      let v1 := if v > 18 then 18 else v
      some (if v1 < 1 then 1 else v1)

/-- The entries input's `onChange` handler: `setEntries(parseInt(v))`,
with no further checks. -/
def entriesOnChange (s : String) : Option Int :=
  parseIntStr s

/-- `handleCheckboxChange(team)` on the previous selection list: remove the
team when present, append it when fewer than `entries` teams are selected,
otherwise leave the selection unchanged. -/
def handleCheckboxChange (entries : ℕ) (prev : List String) (team : String) : List String :=
  if team ∈ prev then prev.filter (· ≠ team)
  else if prev.length < entries then prev ++ [team]
  else prev

/-- A sequence of checkbox toggles applied to the selection state. -/
def applyToggles (entries : ℕ) (start : List String) (toggles : List String) : List String :=
  toggles.foldl (handleCheckboxChange entries) start

/-- A schedule game as consumed by the helpers: `.week`, `.home`, `.away`. -/
structure SGame where
  week : ℕ
  home : String
  away : String
deriving DecidableEq

/-- `Set.prototype.add`: a JavaScript `Set` keeps insertion order and
ignores re-insertions, so it is a duplicate-free list grown at the end. -/
def setAdd (l : List String) (x : String) : List String :=
  if x ∈ l then l else l ++ [x]

/-- The `Set` built by both `getTeamsForWeek` and
`getAvailableTeamsForEntryWeek`: walk the schedule, and for each game of
the given week add its home then its away team. -/
def teamsForWeekNum (schedule : List SGame) (weekNum : ℕ) : List String :=
  schedule.foldl
    (fun acc g => if g.week = weekNum then setAdd (setAdd acc g.home) g.away else acc) []

/-- `getTeamsForWeek(schedule, weekIdx)`: the teams of week `weekIdx + 1`,
as `Array.from(teams).sort()` — sorted ascending by the string order. -/
def getTeamsForWeek (schedule : List SGame) (weekIdx : ℕ) : List String :=
  List.insertionSort (· ≤ ·) (teamsForWeekNum schedule (weekIdx + 1))

/-- The week-by-entry pick grid `editPicks`; a cell is `none` for
`null`/`undefined`. -/
abbrev Grid := List (List (Option String))

/-- `grid[w][e]`, with `none` for any out-of-range access. -/
def cellGet (g : Grid) (w e : ℕ) : Option String :=
  (g.getD w []).getD e none

/-- JavaScript truthiness of a pick cell: `null`, `undefined` and the
empty string are falsy, every other string is truthy. -/
def truthy : Option String → Option String
  | some s => if s = "" then none else some s
  | none => none

/-- The truthy team names of entry `e`'s column, in week order; used to
state the no-reuse invariant and to model the `alreadyPicked` sets. -/
def colPicks (g : Grid) (e : ℕ) : List String :=
  g.filterMap (fun row => truthy (row.getD e none))

/-- The `alreadyPicked` set of `getAvailableTeamsForEntryWeek`: the loop
`for (w = 0; w < weekIdx; w++) if (picks[w] && picks[w][entryIdx]) add(...)`,
modelled by its membership (duplicates are immaterial to a set). -/
def earlierPicks (picks : Grid) (weekIdx entryIdx : ℕ) : List String :=
  colPicks (picks.take weekIdx) entryIdx

/-- `getAvailableTeamsForEntryWeek(schedule, picks, weekIdx, entryIdx)`:
teams playing in week `weekIdx + 1`, minus the teams the entry already
picked in prior weeks. -/
def getAvailableTeamsForEntryWeek (schedule : List SGame) (picks : Grid)
    (weekIdx entryIdx : ℕ) : List String :=
  (teamsForWeekNum schedule (weekIdx + 1)).filter
    (fun t => t ∉ earlierPicks picks weekIdx entryIdx)

/-- The loop of `handlePickChange` over the weeks after `weekIdx`:
`if (updated[w][entryIdx] === team) updated[w][entryIdx] = null`. -/
def clearTeamLater (rows : Grid) (entryIdx : ℕ) (team : String) : Grid :=
  rows.map (fun row => if row.getD entryIdx none = some team then row.set entryIdx none else row)

/-- `handlePickChange(weekIdx, entryIdx, team)` on the grid: write the team
at the given cell, then null the same team out of every later week of the
same entry. -/
def handlePickChange : Grid → ℕ → ℕ → String → Grid
  | [], _, _, _ => []
  | row :: rest, 0, e, team => row.set e (some team) :: clearTeamLater rest e team
  | row :: rest, wk + 1, e, team => row :: handlePickChange rest wk e team

/-- A sequence of dropdown edits, each `(weekIdx, entryIdx, team)`,
applied through `handlePickChange`. -/
def applyEdits : Grid → List (ℕ × ℕ × String) → Grid
  | g, [] => g
  | g, (wk, e, team) :: rest => applyEdits (handlePickChange g wk e team) rest

/-- A dropdown edit sequence is valid when every edit picks its team from
`getAvailableTeamsForEntryWeek` evaluated at the grid it is applied to,
which is what the dropdowns offer. -/
def ValidEdits (schedule : List SGame) : Grid → List (ℕ × ℕ × String) → Prop
  | _, [] => True
  | g, (wk, e, team) :: rest =>
      team ∈ getAvailableTeamsForEntryWeek schedule g wk e ∧
        ValidEdits schedule (handlePickChange g wk e team) rest

/-- `transposePicks(weekEntryArray)`: turn the week-by-entry grid into an
entry-by-week table of strings, `row.push(weekEntryArray[week][entry] || "")`. -/
def transposePicks (wea : Grid) : List (List String) :=
  if wea.isEmpty then []
  else
    (List.range ((wea.headD []).length)).map fun e =>
      (List.range wea.length).map fun w => (cellGet wea w e).getD ""

/-- The value of one lowercase hexadecimal digit, as `parseInt(·, 16)`
reads it (restricted to the characters the color strings contain). -/
def hexVal (c : Char) : ℕ :=
  if c.isDigit then c.toNat - 48
  else if 'a' ≤ c ∧ c ≤ 'f' then c.toNat - 87
  else 0

/-- `parseInt` of a two-character hexadecimal substring. -/
def hex2 (c1 c2 : Char) : ℕ :=
  16 * hexVal c1 + hexVal c2

/-- `s.replace('#', '')` with a string pattern replaces only the first
occurrence of `'#'`. -/
def stripFirstHash : List Char → List Char
  | [] => []
  | c :: cs => if c = '#' then cs else c :: stripFirstHash cs

/-- `Math.round`: round half away from zero upward, `⌊x + 1/2⌋`. -/
def jsRound (x : ℚ) : ℤ :=
  ⌊x + 1 / 2⌋

/-- The lowercase digit character of `n < 16`, as `Number.prototype.toString(16)`
prints it. -/
def hexDigitChar (n : ℕ) : Char :=
  if n < 10 then Char.ofNat (48 + n) else Char.ofNat (87 + n)

/-- `n.toString(16)` for a natural number: most significant digit first,
lowercase. -/
def natToHex (n : ℕ) : List Char :=
  if h : n < 16 then [hexDigitChar n]
  else
    have : n / 16 < n := Nat.div_lt_self (by omega) (by omega)
    natToHex (n / 16) ++ [hexDigitChar (n % 16)]

/-- `interpolateColor(a, b, t)`: parse both `#rrggbb` strings, round each
linearly interpolated channel, and print
`'#' + ((1 << 24) + (rr << 16) + (rg << 8) + rb).toString(16).slice(1)`.
For the seven-character `#`-prefixed inputs the UI passes, this is the
JavaScript computation verbatim (the `getD` defaults are never reached,
and the channel values are non-negative so `Int.toNat` is exact). -/
def interpolateColor (a b : String) (t : ℚ) : String :=
  let ah := stripFirstHash a.data
  let bh := stripFirstHash b.data
  let ar := hex2 (ah.getD 0 '0') (ah.getD 1 '0')
  let ag := hex2 (ah.getD 2 '0') (ah.getD 3 '0')
  let ab' := hex2 (ah.getD 4 '0') (ah.getD 5 '0')
  let br := hex2 (bh.getD 0 '0') (bh.getD 1 '0')
  let bg := hex2 (bh.getD 2 '0') (bh.getD 3 '0')
  let bb := hex2 (bh.getD 4 '0') (bh.getD 5 '0')
  let rr := jsRound ((ar : ℚ) + ((br : ℚ) - (ar : ℚ)) * t)
  let rg := jsRound ((ag : ℚ) + ((bg : ℚ) - (ag : ℚ)) * t)
  let rb := jsRound ((ab' : ℚ) + ((bb : ℚ) - (ab' : ℚ)) * t)
  String.mk ('#' :: (natToHex ((2 ^ 24 : ℤ) + rr * 2 ^ 16 + rg * 2 ^ 8 + rb).toNat).drop 1)

/-- The sixteen lowercase hexadecimal digit characters. -/
def lowerHexDigits : List Char :=
  "0123456789abcdef".data

/-- A color string is well formed when it is `'#'` followed by six
lowercase hexadecimal digits. -/
def isLowerHexDigit (c : Char) : Prop :=
  c ∈ lowerHexDigits

instance : DecidablePred isLowerHexDigit := fun c =>
  inferInstanceAs (Decidable (c ∈ lowerHexDigits))

def IsHexColor (s : String) : Prop :=
  ∃ c1 c2 c3 c4 c5 c6, s.data = ['#', c1, c2, c3, c4, c5, c6] ∧
    isLowerHexDigit c1 ∧ isLowerHexDigit c2 ∧ isLowerHexDigit c3 ∧
    isLowerHexDigit c4 ∧ isLowerHexDigit c5 ∧ isLowerHexDigit c6

/-- Modelled from the spec: a realized game result consumed by the rating
store's `update_through` (the backend rating engine is not part of the
frontend sources). Each result carries its week, the winner and the loser. -/
structure GameResult where
  week : ℕ
  winner : String
  loser : String
deriving DecidableEq

/-- Modelled from the spec: the `RatingStore`, the only mutable
season-spanning entity — per-team ratings plus the highest week whose
results have already been applied. -/
structure RatingStore where
  ratings : String → ℚ
  appliedThrough : ℕ

/-- Modelled from the spec: the Elo adjustment `K * (actual - expected)`
for the game's winner (`actual = 1`). The logistic expected-outcome
transform of §4.2 is transcendental, so it is abstracted as the function
argument `expected` of the winner's and loser's current ratings; every
theorem below holds for any such function, hence for the logistic one. -/
def gameDelta (K : ℚ) (expected : ℚ → ℚ → ℚ) (r : String → ℚ) (g : GameResult) : ℚ :=
  K * (1 - expected (r g.winner) (r g.loser))

/-- Modelled from the spec: apply one game's Elo adjustment — the winner
gains the delta, the loser loses the same delta, nobody else moves. -/
def applyGame (K : ℚ) (expected : ℚ → ℚ → ℚ) (r : String → ℚ) (g : GameResult) : String → ℚ :=
  fun t =>
    if t = g.winner then r t + gameDelta K expected r g
    else if t = g.loser then r t - gameDelta K expected r g
    else r t

/-- Modelled from the spec: the games `update_through(week, results)`
actually applies — those of a week not yet applied and not beyond the
requested week. -/
def gamesToApply (week : ℕ) (results : List GameResult) (appliedThrough : ℕ) : List GameResult :=
  results.filter (fun g => appliedThrough < g.week ∧ g.week ≤ week)

/-- Modelled from the spec: `update_through(week, results)` folds the Elo
adjustment over the not-yet-applied games and advances the
highest-week-applied marker. -/
def update_through (K : ℚ) (expected : ℚ → ℚ → ℚ) (week : ℕ) (results : List GameResult)
    (s : RatingStore) : RatingStore :=
  { ratings := (gamesToApply week results s.appliedThrough).foldl (applyGame K expected) s.ratings
    appliedThrough := max s.appliedThrough week }

/-- Modelled from the spec: the list of individual rating deltas the fold
applies — for each game in order, the winner's delta then the loser's,
each computed against the ratings in force when that game is applied. -/
def appliedDeltas (K : ℚ) (expected : ℚ → ℚ → ℚ) : (String → ℚ) → List GameResult → List ℚ
  | _, [] => []
  | r, g :: gs =>
      gameDelta K expected r g :: -gameDelta K expected r g ::
        appliedDeltas K expected (applyGame K expected r g) gs

lemma handleCheckboxChange_step (entries : ℕ) (prev : List String) (team : String)
    (h : prev.Nodup ∧ prev.length ≤ entries) :
    (handleCheckboxChange entries prev team).Nodup ∧
      (handleCheckboxChange entries prev team).length ≤ entries := by
  unfold handleCheckboxChange
  split_ifs with h1 h2
  · exact ⟨h.1.filter _, le_trans (List.length_filter_le _ _) h.2⟩
  · refine ⟨?_, by simpa using h2⟩
    simp [List.nodup_append, h.1, h1]
  · exact h

lemma applyToggles_invariant (entries : ℕ) (toggles : List String) (start : List String)
    (h : start.Nodup ∧ start.length ≤ entries) :
    (applyToggles entries start toggles).Nodup ∧
      (applyToggles entries start toggles).length ≤ entries := by
  induction toggles generalizing start with
  | nil => exact h
  | cons t ts ih =>
      simpa [applyToggles] using
        ih (handleCheckboxChange entries start t) (handleCheckboxChange_step entries start t h)

/-- C7: within one week, starting from the empty selection, any sequence of
checkbox toggles leaves `selectedTeams` duplicate-free with at most
`entries` teams selected. -/
theorem selectedTeams_nodup_and_bounded (entries : ℕ) (toggles : List String) :
    (applyToggles entries [] toggles).Nodup ∧
      (applyToggles entries [] toggles).length ≤ entries :=
  applyToggles_invariant entries toggles [] ⟨List.nodup_nil, by simp⟩

/-- C5 counterexample: the week input handler maps the out-of-range week 25
to 18 — it neither fails (the result is not the `NaN`-like `none`) nor keeps
the raw value, contradicting "fails with the typed error `InvalidWeek`;
never silently coerced or clamped". -/
theorem weekOnChange_clamps_25 :
    weekOnChange "25" = some 18 ∧ weekOnChange "25" ≠ some 25 ∧ weekOnChange "25" ≠ none := by
  decide

/-- C5 amended: the week input handler clamps out-of-range weeks to the
nearest bound of `[1, 18]` (values above 18 become 18, values below 1
become 1) and keeps in-range weeks unchanged; no failure is signalled. -/
theorem weekOnChange_clamp (s : String) (v : Int) (h : parseIntStr s = some v) :
    (18 < v → weekOnChange s = some 18) ∧
      (v < 1 → weekOnChange s = some 1) ∧
      (1 ≤ v → v ≤ 18 → weekOnChange s = some v) := by
  unfold weekOnChange
  rw [h]
  refine ⟨fun h1 => ?_, fun h2 => ?_, fun h3 h4 => ?_⟩ <;>
    · simp only
      split_ifs <;> first | rfl | (exfalso; omega)

theorem weekOnChange_clamp_witness :
    parseIntStr "25" = some 25 ∧
      ((18 < (25 : Int) → weekOnChange "25" = some 18) ∧
        ((25 : Int) < 1 → weekOnChange "25" = some 1) ∧
        (1 ≤ (25 : Int) → (25 : Int) ≤ 18 → weekOnChange "25" = some 25)) :=
  ⟨by decide, weekOnChange_clamp "25" 25 (by decide)⟩

/-- C6 counterexample: the entries input handler accepts the entry count 0
(which is ≤ 0) and stores it unchanged — no typed `InvalidEntryCount`
failure occurs. -/
theorem entriesOnChange_accepts_zero :
    entriesOnChange "0" = some 0 ∧ entriesOnChange "0" ≠ none ∧ ¬(1 ≤ (0 : Int)) := by
  decide

/-- C6 amended: the entries input handler performs no validation at all —
whatever integer `parseInt` produces is stored unchanged, even when it is
≤ 0 or exceeds the input's displayed maximum of 10. -/
theorem entriesOnChange_stores_raw (s : String) (v : Int) (h : parseIntStr s = some v)
    (_hout : v ≤ 0 ∨ 10 < v) : entriesOnChange s = some v :=
  h

theorem entriesOnChange_stores_raw_witness :
    parseIntStr "0" = some 0 ∧ ((0 : Int) ≤ 0 ∨ 10 < (0 : Int)) ∧
      entriesOnChange "0" = some 0 :=
  ⟨by decide, by decide, entriesOnChange_stores_raw "0" 0 (by decide) (by decide)⟩

/-- C3: applying `update_through` a second time with the same week and
results is a no-op — after the first call the store's high-water mark is at
least the requested week, so the second call's game filter is empty. -/
theorem update_through_idempotent (K : ℚ) (expected : ℚ → ℚ → ℚ) (week : ℕ)
    (results : List GameResult) (s : RatingStore)
    (_h : ∀ g ∈ results, g.week ≤ week) :
    update_through K expected week results (update_through K expected week results s) =
      update_through K expected week results s := by
  have hfilter : gamesToApply week results (max s.appliedThrough week) = [] := by
    unfold gamesToApply
    rw [List.filter_eq_nil_iff]
    intro g _
    simp only [decide_eq_true_eq, not_and, not_le]
    omega
  show update_through K expected week results _ = _
  unfold update_through
  simp [hfilter, max_assoc]

theorem update_through_idempotent_witness :
    (∀ g ∈ [({ week := 1, winner := "A", loser := "B" } : GameResult)], g.week ≤ 3) ∧
      update_through 20 (fun _ _ => 1 / 2) 3 [{ week := 1, winner := "A", loser := "B" }]
          (update_through 20 (fun _ _ => 1 / 2) 3 [{ week := 1, winner := "A", loser := "B" }]
            ⟨fun _ => 1500, 0⟩) =
        update_through 20 (fun _ _ => 1 / 2) 3 [{ week := 1, winner := "A", loser := "B" }]
          ⟨fun _ => 1500, 0⟩ :=
  ⟨by decide, update_through_idempotent 20 (fun _ _ => 1 / 2) 3 _ _ (by decide)⟩

lemma appliedDeltas_sum_zero (K : ℚ) (expected : ℚ → ℚ → ℚ) :
    ∀ (gs : List GameResult) (r : String → ℚ), (appliedDeltas K expected r gs).sum = 0
  | [], _ => rfl
  | g :: gs, r => by
      simp [appliedDeltas, appliedDeltas_sum_zero K expected gs]

/-- C4: the Elo update is zero-sum — the deltas `update_through` applies
over a week's results sum to exactly 0, and within each game the winner's
and loser's rating changes are equal in magnitude and opposite in sign. -/
theorem update_through_zero_sum (K : ℚ) (expected : ℚ → ℚ → ℚ) (week : ℕ)
    (results : List GameResult) (s : RatingStore) (g : GameResult) (r : String → ℚ)
    (hg : g.winner ≠ g.loser) :
    (appliedDeltas K expected s.ratings (gamesToApply week results s.appliedThrough)).sum = 0 ∧
      applyGame K expected r g g.winner - r g.winner =
        -(applyGame K expected r g g.loser - r g.loser) := by
  refine ⟨appliedDeltas_sum_zero K expected _ _, ?_⟩
  unfold applyGame
  rw [if_pos rfl, if_neg (Ne.symm hg), if_pos rfl]
  ring

theorem update_through_zero_sum_witness :
    ("A" : String) ≠ "B" ∧
      ((appliedDeltas 20 (fun _ _ => 1 / 2) (fun _ => 1500 : String → ℚ)
            (gamesToApply 3 [({ week := 1, winner := "A", loser := "B" } : GameResult)] 0)).sum = 0 ∧
        applyGame 20 (fun _ _ => 1 / 2) (fun _ => 1500)
              ({ week := 1, winner := "A", loser := "B" } : GameResult) "A" - (fun _ => (1500 : ℚ)) "A" =
          -(applyGame 20 (fun _ _ => 1 / 2) (fun _ => 1500)
              ({ week := 1, winner := "A", loser := "B" } : GameResult) "B" - (fun _ => (1500 : ℚ)) "B")) :=
  ⟨by decide,
    update_through_zero_sum 20 (fun _ _ => 1 / 2) 3 [{ week := 1, winner := "A", loser := "B" }]
      ⟨fun _ => 1500, 0⟩ { week := 1, winner := "A", loser := "B" } (fun _ => 1500) (by decide)⟩

/-- C2 counterexample: on two summaries with equal expected value, where the
first has the lower win probability and the later team name, the stable
sort of `fetchSummarySort` keeps the input order, so the output violates
the claimed (expected value, win probability, team name) ordering at its
adjacent pair. -/
theorem fetchSummarySort_no_tiebreak :
    ¬ ChainSpecOrder
        (fetchSummarySort
          [{ team := "B", win_prob := 0, popularity := 0, expected_value := 1,
             future_value := none },
           { team := "A", win_prob := 1, popularity := 0, expected_value := 1,
             future_value := none }]) := by
  decide

/-- C2 amended: `fetchSummarySort` orders the week summary descending by
expected value only — the output is sorted by `evDesc` and is a
permutation of the input; summaries tied on expected value keep their
input order (stable sort), with no win-probability or team-name
tie-breaking. -/
theorem fetchSummarySort_sorted_desc (l : List WeekSummary) :
    (fetchSummarySort l).Sorted evDesc ∧ List.Perm (fetchSummarySort l) l :=
  ⟨List.sorted_insertionSort evDesc l, List.perm_insertionSort evDesc l⟩

lemma mem_setAdd {l : List String} {x t : String} : t ∈ setAdd l x ↔ t ∈ l ∨ t = x := by
  unfold setAdd
  split_ifs with hx
  · constructor
    · exact Or.inl
    · rintro (h | rfl)
      · exact h
      · exact hx
  · simp

lemma nodup_setAdd {l : List String} {x : String} (h : l.Nodup) : (setAdd l x).Nodup := by
  unfold setAdd
  split_ifs with hx
  · exact h
  · simp [List.nodup_append, h, hx]

lemma teamsFold_mem (wn : ℕ) :
    ∀ (l : List SGame) (acc : List String) (t : String),
      t ∈ l.foldl
          (fun acc g => if g.week = wn then setAdd (setAdd acc g.home) g.away else acc) acc ↔
        t ∈ acc ∨ ∃ gm ∈ l, gm.week = wn ∧ (gm.home = t ∨ gm.away = t) := by
  intro l
  induction l with
  | nil => simp
  | cons g l ih =>
      intro acc t
      simp only [List.foldl_cons, List.mem_cons]
      rw [ih]
      by_cases hw : g.week = wn
      · rw [if_pos hw]
        rw [mem_setAdd, mem_setAdd]
        constructor
        · rintro (((h | rfl) | rfl) | ⟨gm, hgm, h1, h2⟩)
          · exact Or.inl h
          · exact Or.inr ⟨g, Or.inl rfl, hw, Or.inl rfl⟩
          · exact Or.inr ⟨g, Or.inl rfl, hw, Or.inr rfl⟩
          · exact Or.inr ⟨gm, Or.inr hgm, h1, h2⟩
        · rintro (h | ⟨gm, (rfl | hgm), h1, (rfl | rfl)⟩)
          · exact Or.inl (Or.inl (Or.inl h))
          · exact Or.inl (Or.inl (Or.inr rfl))
          · exact Or.inl (Or.inr rfl)
          · exact Or.inr ⟨gm, hgm, h1, Or.inl rfl⟩
          · exact Or.inr ⟨gm, hgm, h1, Or.inr rfl⟩
      · rw [if_neg hw]
        constructor
        · rintro (h | ⟨gm, hgm, h1, h2⟩)
          · exact Or.inl h
          · exact Or.inr ⟨gm, Or.inr hgm, h1, h2⟩
        · rintro (h | ⟨gm, (rfl | hgm), h1, h2⟩)
          · exact Or.inl h
          · exact absurd h1 hw
          · exact Or.inr ⟨gm, hgm, h1, h2⟩

lemma teamsFold_nodup (wn : ℕ) :
    ∀ (l : List SGame) (acc : List String), acc.Nodup →
      (l.foldl
          (fun acc g => if g.week = wn then setAdd (setAdd acc g.home) g.away else acc)
          acc).Nodup := by
  intro l
  induction l with
  | nil => exact fun acc h => h
  | cons g l ih =>
      intro acc h
      simp only [List.foldl_cons]
      by_cases hw : g.week = wn
      · rw [if_pos hw]
        exact ih _ (nodup_setAdd (nodup_setAdd h))
      · rw [if_neg hw]
        exact ih _ h

lemma teamsForWeekNum_mem {schedule : List SGame} {wn : ℕ} {t : String} :
    t ∈ teamsForWeekNum schedule wn ↔
      ∃ gm ∈ schedule, gm.week = wn ∧ (gm.home = t ∨ gm.away = t) := by
  unfold teamsForWeekNum
  rw [teamsFold_mem]
  simp

lemma teamsForWeekNum_nodup (schedule : List SGame) (wn : ℕ) :
    (teamsForWeekNum schedule wn).Nodup :=
  teamsFold_nodup wn schedule [] List.nodup_nil

/-- C9: `getTeamsForWeek` returns a duplicate-free list, sorted ascending
in the string order, whose members are exactly the home and away teams of
the schedule's games of week `weekIdx + 1`. -/
theorem getTeamsForWeek_spec (schedule : List SGame) (weekIdx : ℕ) :
    (getTeamsForWeek schedule weekIdx).Nodup ∧
      (getTeamsForWeek schedule weekIdx).Sorted (· ≤ ·) ∧
      ∀ t, t ∈ getTeamsForWeek schedule weekIdx ↔
        ∃ gm ∈ schedule, gm.week = weekIdx + 1 ∧ (gm.home = t ∨ gm.away = t) := by
  refine ⟨?_, ?_, ?_⟩
  · exact (List.perm_insertionSort _ _).nodup_iff.mpr (teamsForWeekNum_nodup _ _)
  · exact List.sorted_insertionSort _ _
  · intro t
    unfold getTeamsForWeek
    rw [List.mem_insertionSort]
    exact teamsForWeekNum_mem

lemma getD_map_range {α : Type} (n : ℕ) (f : ℕ → α) (i : ℕ) (d : α) (h : i < n) :
    (((List.range n).map f).getD i d) = f i := by
  rw [List.getD_eq_getElem?_getD, List.getElem?_map, List.getElem?_range h]
  rfl

/-- C8: on a non-empty rectangular week-by-entry grid, `transposePicks`
produces one row per entry of the first week-row, each row as long as the
number of weeks, and cell `[e][w]` is the input cell `[w][e]` when that
cell is a truthy string and the empty string otherwise
(`Option.getD _ ""` maps a truthy `some s` to `s` and both `none` and
`some ""` to `""`). -/
theorem transposePicks_spec (wea : Grid) (e w : ℕ)
    (hne : wea ≠ [])
    (_hrect : ∀ row ∈ wea, row.length = (wea.headD []).length)
    (he : e < (wea.headD []).length) (hw : w < wea.length) :
    (transposePicks wea).length = (wea.headD []).length ∧
      ((transposePicks wea).getD e []).length = wea.length ∧
      ((transposePicks wea).getD e []).getD w "" = (cellGet wea w e).getD "" := by
  unfold transposePicks
  rw [if_neg (by simpa using hne)]
  refine ⟨by simp, ?_, ?_⟩
  · rw [getD_map_range _ _ _ _ he]
    simp
  · rw [getD_map_range _ _ _ _ he, getD_map_range _ _ _ _ hw]

theorem transposePicks_spec_witness :
    ([[some "DAL", none], [some "PHI", some ""]] : Grid) ≠ [] ∧
      (∀ row ∈ ([[some "DAL", none], [some "PHI", some ""]] : Grid),
        row.length = (([[some "DAL", none], [some "PHI", some ""]] : Grid).headD []).length) ∧
      (1 < (([[some "DAL", none], [some "PHI", some ""]] : Grid).headD []).length ∧
        1 < ([[some "DAL", none], [some "PHI", some ""]] : Grid).length) ∧
      ((transposePicks [[some "DAL", none], [some "PHI", some ""]]).length =
          (([[some "DAL", none], [some "PHI", some ""]] : Grid).headD []).length ∧
        ((transposePicks [[some "DAL", none], [some "PHI", some ""]]).getD 1 []).length =
          ([[some "DAL", none], [some "PHI", some ""]] : Grid).length ∧
        ((transposePicks [[some "DAL", none], [some "PHI", some ""]]).getD 1 []).getD 1 "" =
          (cellGet [[some "DAL", none], [some "PHI", some ""]] 1 1).getD "") :=
  ⟨by decide, by decide, ⟨by decide, by decide⟩,
    transposePicks_spec [[some "DAL", none], [some "PHI", some ""]] 1 1 (by decide) (by decide)
      (by decide) (by decide)⟩

lemma getD_set_self (l : List (Option String)) (n : ℕ) (a : Option String) (h : n < l.length) :
    (l.set n a).getD n none = a := by
  rw [List.getD_eq_getElem?_getD, List.getElem?_set_self', List.getElem?_eq_getElem h]
  rfl

lemma getD_oob (l : List (Option String)) (n : ℕ) (h : l.length ≤ n) :
    l.getD n none = none :=
  List.getD_eq_default _ _ h

lemma lt_length_of_getD_eq_some {l : List (Option String)} {n : ℕ} {s : String}
    (h : l.getD n none = some s) : n < l.length := by
  by_contra hn
  rw [getD_oob l n (le_of_not_lt hn)] at h
  exact Option.noConfusion h

lemma cellGet_cons_zero (row : List (Option String)) (rest : Grid) (e : ℕ) :
    cellGet (row :: rest) 0 e = row.getD e none := by
  simp [cellGet]

lemma cellGet_cons_succ (row : List (Option String)) (rest : Grid) (w e : ℕ) :
    cellGet (row :: rest) (w + 1) e = cellGet rest w e := by
  simp [cellGet]

lemma clearTeamLater_head_cell (row : List (Option String)) (e : ℕ) (team : String) :
    ((if row.getD e none = some team then row.set e none else row).getD e none) =
      if row.getD e none = some team then none else row.getD e none := by
  split_ifs with hc
  · exact getD_set_self row e none (lt_length_of_getD_eq_some hc)
  · rfl

lemma cellGet_clearTeamLater :
    ∀ (rows : Grid) (e : ℕ) (team : String) (w : ℕ),
      cellGet (clearTeamLater rows e team) w e ≠ some team
  | [], e, team, w => by simp [clearTeamLater, cellGet]
  | row :: rest, e, team, 0 => by
      rw [clearTeamLater, List.map_cons, cellGet_cons_zero, clearTeamLater_head_cell]
      split_ifs with hc
      · exact fun h => Option.noConfusion h
      · exact hc
  | row :: rest, e, team, w + 1 => by
      rw [clearTeamLater, List.map_cons, cellGet_cons_succ]
      exact cellGet_clearTeamLater rest e team w


lemma truthy_some (s : String) : truthy (some s) = if s = "" then none else some s :=
  rfl

lemma truthy_eq_some {c : Option String} {b : String} (h : truthy c = some b) :
    c = some b ∧ b ≠ "" := by
  cases c with
  | none => exact Option.noConfusion h
  | some s =>
      rw [truthy_some] at h
      by_cases hs : s = ""
      · rw [if_pos hs] at h
        exact Option.noConfusion h
      · rw [if_neg hs] at h
        cases h
        exact ⟨rfl, hs⟩

lemma colPicks_cons_none {row : List (Option String)} {e : ℕ} (rest : Grid)
    (h : truthy (row.getD e none) = none) :
    colPicks (row :: rest) e = colPicks rest e := by
  simp only [colPicks, List.filterMap_cons]
  rw [h]

lemma colPicks_cons_some {row : List (Option String)} {e : ℕ} {b : String} (rest : Grid)
    (h : truthy (row.getD e none) = some b) :
    colPicks (row :: rest) e = b :: colPicks rest e := by
  simp only [colPicks, List.filterMap_cons]
  rw [h]

lemma clearTeamLater_cons (row : List (Option String)) (rest : Grid) (e : ℕ) (team : String) :
    clearTeamLater (row :: rest) e team =
      (if row.getD e none = some team then row.set e none else row) ::
        clearTeamLater rest e team :=
  rfl

lemma cleared_head_cell {row : List (Option String)} {e : ℕ} {team : String}
    (hc : row.getD e none = some team) :
    (row.set e none).getD e none = none :=
  getD_set_self row e none (lt_length_of_getD_eq_some hc)

lemma colPicks_clearTeamLater_sublist :
    ∀ (rows : Grid) (e : ℕ) (team : String),
      (colPicks (clearTeamLater rows e team) e).Sublist (colPicks rows e)
  | [], _, _ => List.Sublist.refl _
  | row :: rest, e, team => by
      have ih := colPicks_clearTeamLater_sublist rest e team
      rw [clearTeamLater_cons]
      by_cases hc : row.getD e none = some team
      · rw [if_pos hc, colPicks_cons_none _ (by rw [cleared_head_cell hc]; rfl)]
        by_cases ht : team = ""
        · rw [colPicks_cons_none _ (by rw [hc, truthy_some, if_pos ht])]
          exact ih
        · rw [colPicks_cons_some _ (by rw [hc, truthy_some, if_neg ht])]
          exact ih.trans (List.sublist_cons_self _ _)
      · rw [if_neg hc]
        cases htr : truthy (row.getD e none) with
        | none => rw [colPicks_cons_none _ htr, colPicks_cons_none _ htr]; exact ih
        | some b =>
            rw [colPicks_cons_some _ htr, colPicks_cons_some _ htr]
            exact ih.cons₂ b

lemma not_mem_colPicks_clearTeamLater :
    ∀ (rows : Grid) (e : ℕ) (team : String),
      team ∉ colPicks (clearTeamLater rows e team) e
  | [], e, team => by simp [clearTeamLater, colPicks]
  | row :: rest, e, team => by
      have ih := not_mem_colPicks_clearTeamLater rest e team
      rw [clearTeamLater_cons]
      by_cases hc : row.getD e none = some team
      · rw [if_pos hc, colPicks_cons_none _ (by rw [cleared_head_cell hc]; rfl)]
        exact ih
      · rw [if_neg hc]
        cases htr : truthy (row.getD e none) with
        | none => rw [colPicks_cons_none _ htr]; exact ih
        | some b =>
            rw [colPicks_cons_some _ htr]
            intro hmem
            rcases List.mem_cons.mp hmem with rfl | hmem
            · exact hc (truthy_eq_some htr).1
            · exact ih hmem

lemma getD_set_ne (l : List (Option String)) {n m : ℕ} (a : Option String) (h : n ≠ m) :
    (l.set n a).getD m none = l.getD m none := by
  rw [List.getD_eq_getElem?_getD, List.getElem?_set_ne h, ← List.getD_eq_getElem?_getD]

lemma nodup_colPicks_tail {row : List (Option String)} {rest : Grid} {e : ℕ}
    (h : (colPicks (row :: rest) e).Nodup) : (colPicks rest e).Nodup := by
  cases htr : truthy (row.getD e none) with
  | none => rwa [colPicks_cons_none _ htr] at h
  | some b =>
      rw [colPicks_cons_some _ htr] at h
      exact h.of_cons

lemma colPicks_tail_subset (row : List (Option String)) (rest : Grid) (e : ℕ) :
    colPicks rest e ⊆ colPicks (row :: rest) e := by
  cases htr : truthy (row.getD e none) with
  | none =>
      rw [colPicks_cons_none _ htr]
      exact fun x hx => hx
  | some b =>
      rw [colPicks_cons_some _ htr]
      exact fun x hx => List.mem_cons_of_mem _ hx

lemma mem_colPicks_handlePickChange :
    ∀ (g : Grid) (wk e : ℕ) (team x : String),
      x ∈ colPicks (handlePickChange g wk e team) e → x = team ∨ x ∈ colPicks g e
  | [], _, _, _, _ => by simp [handlePickChange, colPicks]
  | row :: rest, 0, e, team, x => by
      intro hx
      rw [show handlePickChange (row :: rest) 0 e team =
        row.set e (some team) :: clearTeamLater rest e team from rfl] at hx
      have hsub := (colPicks_clearTeamLater_sublist rest e team).subset
      by_cases he : e < row.length
      · have hcell := getD_set_self row e (some team) he
        by_cases ht : team = ""
        · rw [colPicks_cons_none _ (by rw [hcell, truthy_some, if_pos ht])] at hx
          exact Or.inr (colPicks_tail_subset row rest e (hsub hx))
        · rw [colPicks_cons_some _ (by rw [hcell, truthy_some, if_neg ht])] at hx
          rcases List.mem_cons.mp hx with rfl | hx
          · exact Or.inl rfl
          · exact Or.inr (colPicks_tail_subset row rest e (hsub hx))
      · rw [List.set_eq_of_length_le (le_of_not_lt he)] at hx
        cases htr : truthy (row.getD e none) with
        | none =>
            rw [colPicks_cons_none _ htr] at hx
            exact Or.inr (colPicks_tail_subset row rest e (hsub hx))
        | some b =>
            rw [colPicks_cons_some _ htr] at hx
            rcases List.mem_cons.mp hx with rfl | hx
            · refine Or.inr ?_
              rw [colPicks_cons_some _ htr]
              exact List.mem_cons_self _ _
            · exact Or.inr (colPicks_tail_subset row rest e (hsub hx))
  | row :: rest, wk + 1, e, team, x => by
      intro hx
      rw [show handlePickChange (row :: rest) (wk + 1) e team =
        row :: handlePickChange rest wk e team from rfl] at hx
      cases htr : truthy (row.getD e none) with
      | none =>
          rw [colPicks_cons_none _ htr] at hx
          rcases mem_colPicks_handlePickChange rest wk e team x hx with h | h
          · exact Or.inl h
          · refine Or.inr ?_
            rw [colPicks_cons_none _ htr]
            exact h
      | some b =>
          rw [colPicks_cons_some _ htr] at hx
          rcases List.mem_cons.mp hx with rfl | hx
          · refine Or.inr ?_
            rw [colPicks_cons_some _ htr]
            exact List.mem_cons_self _ _
          · rcases mem_colPicks_handlePickChange rest wk e team x hx with h | h
            · exact Or.inl h
            · refine Or.inr ?_
              rw [colPicks_cons_some _ htr]
              exact List.mem_cons_of_mem _ h

lemma cellGet_handlePickChange_later :
    ∀ (g : Grid) (wk e : ℕ) (team : String) (w : ℕ), wk < w →
      cellGet (handlePickChange g wk e team) w e ≠ some team
  | [], _, _, _, _, _ => by simp [handlePickChange, cellGet]
  | _ :: _, 0, _, _, 0, hw => absurd hw (lt_irrefl 0)
  | row :: rest, 0, e, team, w + 1, _ => by
      rw [show handlePickChange (row :: rest) 0 e team =
        row.set e (some team) :: clearTeamLater rest e team from rfl, cellGet_cons_succ]
      exact cellGet_clearTeamLater rest e team w
  | _ :: _, wk + 1, _, _, 0, hw => absurd hw (Nat.not_lt_zero _)
  | row :: rest, wk + 1, e, team, w + 1, hw => by
      rw [show handlePickChange (row :: rest) (wk + 1) e team =
        row :: handlePickChange rest wk e team from rfl, cellGet_cons_succ]
      exact cellGet_handlePickChange_later rest wk e team w (by omega)

lemma nodup_colPicks_handlePickChange :
    ∀ (g : Grid) (wk e : ℕ) (team : String),
      team ∉ colPicks (g.take wk) e → (colPicks g e).Nodup →
      (colPicks (handlePickChange g wk e team) e).Nodup
  | [], _, _, _, _, _ => by simp [handlePickChange, colPicks]
  | row :: rest, 0, e, team, _, hnd => by
      rw [show handlePickChange (row :: rest) 0 e team =
        row.set e (some team) :: clearTeamLater rest e team from rfl]
      have hclr := (colPicks_clearTeamLater_sublist rest e team).nodup (nodup_colPicks_tail hnd)
      by_cases he : e < row.length
      · have hcell := getD_set_self row e (some team) he
        by_cases ht : team = ""
        · rw [colPicks_cons_none _ (by rw [hcell, truthy_some, if_pos ht])]
          exact hclr
        · rw [colPicks_cons_some _ (by rw [hcell, truthy_some, if_neg ht])]
          exact List.nodup_cons.mpr ⟨not_mem_colPicks_clearTeamLater rest e team, hclr⟩
      · rw [List.set_eq_of_length_le (le_of_not_lt he)]
        cases htr : truthy (row.getD e none) with
        | none =>
            rw [colPicks_cons_none _ htr]
            exact hclr
        | some b =>
            rw [colPicks_cons_some _ htr]
            refine List.nodup_cons.mpr ⟨?_, hclr⟩
            intro hmem
            have hb := (truthy_eq_some htr).1
            have := (colPicks_clearTeamLater_sublist rest e team).subset hmem
            rw [colPicks_cons_some _ htr] at hnd
            exact (List.nodup_cons.mp hnd).1 this
  | row :: rest, wk + 1, e, team, hnm, hnd => by
      rw [show handlePickChange (row :: rest) (wk + 1) e team =
        row :: handlePickChange rest wk e team from rfl]
      rw [show (row :: rest).take (wk + 1) = row :: rest.take wk from rfl] at hnm
      cases htr : truthy (row.getD e none) with
      | none =>
          rw [colPicks_cons_none _ htr]
          rw [colPicks_cons_none _ htr] at hnd hnm
          exact nodup_colPicks_handlePickChange rest wk e team hnm hnd
      | some b =>
          rw [colPicks_cons_some _ htr]
          rw [colPicks_cons_some _ htr] at hnd hnm
          have hb : b ∉ colPicks (handlePickChange rest wk e team) e := by
            intro hmem
            rcases mem_colPicks_handlePickChange rest wk e team b hmem with rfl | hmem
            · exact hnm (List.mem_cons_self _ _)
            · exact (List.nodup_cons.mp hnd).1 hmem
          exact List.nodup_cons.mpr
            ⟨hb, nodup_colPicks_handlePickChange rest wk e team
              (fun h => hnm (List.mem_cons_of_mem _ h)) (List.nodup_cons.mp hnd).2⟩

lemma colPicks_clearTeamLater_ne :
    ∀ (rows : Grid) (e' : ℕ) (team : String) (e : ℕ), e ≠ e' →
      colPicks (clearTeamLater rows e' team) e = colPicks rows e
  | [], _, _, _, _ => rfl
  | row :: rest, e', team, e, hne => by
      rw [clearTeamLater_cons]
      have hhead : ((if row.getD e' none = some team then row.set e' none else row).getD e none) =
          row.getD e none := by
        split_ifs with hc
        · exact getD_set_ne row none (Ne.symm hne)
        · rfl
      have ih := colPicks_clearTeamLater_ne rest e' team e hne
      cases htr : truthy (row.getD e none) with
      | none =>
          rw [colPicks_cons_none _ (by rw [hhead]; exact htr),
            colPicks_cons_none _ htr]
          exact ih
      | some b =>
          rw [colPicks_cons_some _ (by rw [hhead]; exact htr),
            colPicks_cons_some _ htr]
          rw [ih]

lemma colPicks_handlePickChange_ne :
    ∀ (g : Grid) (wk e' : ℕ) (team : String) (e : ℕ), e ≠ e' →
      colPicks (handlePickChange g wk e' team) e = colPicks g e
  | [], _, _, _, _, _ => rfl
  | row :: rest, 0, e', team, e, hne => by
      rw [show handlePickChange (row :: rest) 0 e' team =
        row.set e' (some team) :: clearTeamLater rest e' team from rfl]
      have hhead : (row.set e' (some team)).getD e none = row.getD e none :=
        getD_set_ne row (some team) (Ne.symm hne)
      cases htr : truthy (row.getD e none) with
      | none =>
          rw [colPicks_cons_none _ (by rw [hhead]; exact htr), colPicks_cons_none _ htr]
          exact colPicks_clearTeamLater_ne rest e' team e hne
      | some b =>
          rw [colPicks_cons_some _ (by rw [hhead]; exact htr), colPicks_cons_some _ htr]
          rw [colPicks_clearTeamLater_ne rest e' team e hne]
  | row :: rest, wk + 1, e', team, e, hne => by
      rw [show handlePickChange (row :: rest) (wk + 1) e' team =
        row :: handlePickChange rest wk e' team from rfl]
      cases htr : truthy (row.getD e none) with
      | none =>
          rw [colPicks_cons_none _ htr, colPicks_cons_none _ htr]
          exact colPicks_handlePickChange_ne rest wk e' team e hne
      | some b =>
          rw [colPicks_cons_some _ htr, colPicks_cons_some _ htr]
          rw [colPicks_handlePickChange_ne rest wk e' team e hne]

lemma mem_available {sched : List SGame} {g : Grid} {wk e : ℕ} {team : String}
    (h : team ∈ getAvailableTeamsForEntryWeek sched g wk e) :
    team ∈ teamsForWeekNum sched (wk + 1) ∧ team ∉ colPicks (g.take wk) e := by
  unfold getAvailableTeamsForEntryWeek at h
  have h2 := List.mem_filter.mp h
  refine ⟨h2.1, ?_⟩
  simpa [earlierPicks] using h2.2

lemma teamsForWeekNum_ne_empty {sched : List SGame} {wn : ℕ} {t : String}
    (hsched : ∀ gm ∈ sched, gm.home ≠ "" ∧ gm.away ≠ "")
    (ht : t ∈ teamsForWeekNum sched wn) : t ≠ "" := by
  rcases teamsForWeekNum_mem.mp ht with ⟨gm, hgm, _, rfl | rfl⟩
  · exact (hsched gm hgm).1
  · exact (hsched gm hgm).2

lemma available_not_earlier {sched : List SGame} {g : Grid} {wk e w2 : ℕ} {t : String}
    (hsched : ∀ gm ∈ sched, gm.home ≠ "" ∧ gm.away ≠ "")
    (hw2 : w2 < wk)
    (ht : t ∈ getAvailableTeamsForEntryWeek sched g wk e) :
    cellGet g w2 e ≠ some t := by
  obtain ⟨htm, hnm⟩ := mem_available ht
  have htne : t ≠ "" := teamsForWeekNum_ne_empty hsched htm
  intro hcell
  apply hnm
  rw [cellGet] at hcell
  have hlen : w2 < g.length := by
    by_contra hlen
    rw [List.getD_eq_default _ _ (le_of_not_lt hlen)] at hcell
    simp [List.getD] at hcell
  refine List.mem_filterMap.mpr ⟨g.getD w2 [], ?_, ?_⟩
  · have hlen2 : w2 < (g.take wk).length := by
      rw [List.length_take]
      omega
    have heq : (g.take wk).getD w2 [] = g.getD w2 [] := by
      rw [List.getD_eq_getElem?_getD, List.getElem?_take, if_pos hw2,
        ← List.getD_eq_getElem?_getD]
    rw [← heq, List.getD_eq_getElem?_getD, List.getElem?_eq_getElem hlen2]
    simpa using List.getElem_mem hlen2
  · rw [hcell, truthy_some, if_neg htne]

lemma nodup_colPicks_applyEdits (sched : List SGame) :
    ∀ (edits : List (ℕ × ℕ × String)) (g : Grid), ValidEdits sched g edits →
      ∀ e, (colPicks g e).Nodup → (colPicks (applyEdits g edits) e).Nodup
  | [], _, _, _, hnd => hnd
  | (wk, e', team) :: rest, g, hv, e, hnd => by
      rw [show applyEdits g ((wk, e', team) :: rest) =
        applyEdits (handlePickChange g wk e' team) rest from rfl]
      refine nodup_colPicks_applyEdits sched rest _ hv.2 e ?_
      by_cases he : e = e'
      · subst he
        exact nodup_colPicks_handlePickChange g wk e team (mem_available hv.1).2 hnd
      · rw [colPicks_handlePickChange_ne g wk e' team e he]
        exact hnd

/-- C1: no team reuse within an entry. In any grid state whose entry
column holds pairwise-distinct truthy teams, (i) any sequence of dropdown
edits that pick from `getAvailableTeamsForEntryWeek` keeps that column
pairwise distinct, (ii) immediately after `handlePickChange` writes a team
into week `wk`, no later week of the same entry still holds that team,
and (iii) `getAvailableTeamsForEntryWeek` never offers a team the entry
already picked in an earlier week (team names in the schedule being
non-empty). -/
theorem no_team_reuse_per_entry (sched : List SGame) (g : Grid)
    (edits : List (ℕ × ℕ × String)) (wk e w w2 : ℕ) (team t : String)
    (hsched : ∀ gm ∈ sched, gm.home ≠ "" ∧ gm.away ≠ "")
    (hvalid : ValidEdits sched g edits)
    (hnd : (colPicks g e).Nodup)
    (hw : wk < w)
    (hw2 : w2 < wk)
    (ht : t ∈ getAvailableTeamsForEntryWeek sched g wk e) :
    (colPicks (applyEdits g edits) e).Nodup ∧
      cellGet (handlePickChange g wk e team) w e ≠ some team ∧
      cellGet g w2 e ≠ some t :=
  ⟨nodup_colPicks_applyEdits sched edits g hvalid e hnd,
    cellGet_handlePickChange_later g wk e team w hw,
    available_not_earlier hsched hw2 ht⟩

theorem no_team_reuse_per_entry_witness :
    (∀ gm ∈ [({ week := 1, home := "NYG", away := "DAL" } : SGame),
              { week := 2, home := "DAL", away := "PHI" }], gm.home ≠ "" ∧ gm.away ≠ "") ∧
      ValidEdits [{ week := 1, home := "NYG", away := "DAL" },
          { week := 2, home := "DAL", away := "PHI" }]
        [[some "NYG"], [none], [some "DAL"]] [(1, 0, "DAL")] ∧
      (colPicks [[some "NYG"], [none], [some "DAL"]] 0).Nodup ∧
      1 < 2 ∧ 0 < 1 ∧
      "PHI" ∈ getAvailableTeamsForEntryWeek
        [{ week := 1, home := "NYG", away := "DAL" }, { week := 2, home := "DAL", away := "PHI" }]
        [[some "NYG"], [none], [some "DAL"]] 1 0 ∧
      ((colPicks (applyEdits [[some "NYG"], [none], [some "DAL"]] [(1, 0, "DAL")]) 0).Nodup ∧
        cellGet (handlePickChange [[some "NYG"], [none], [some "DAL"]] 1 0 "DAL") 2 0 ≠
          some "DAL" ∧
        cellGet [[some "NYG"], [none], [some "DAL"]] 0 0 ≠ some "PHI") :=
  ⟨by decide, ⟨by decide, trivial⟩, by decide, by decide, by decide, by decide,
    no_team_reuse_per_entry
      [{ week := 1, home := "NYG", away := "DAL" }, { week := 2, home := "DAL", away := "PHI" }]
      [[some "NYG"], [none], [some "DAL"]] [(1, 0, "DAL")] 1 0 2 0 "DAL" "PHI"
      (by decide) ⟨by decide, trivial⟩ (by decide) (by decide) (by decide) (by decide)⟩

lemma natToHex_mul_add (a d : ℕ) (ha : 0 < a) (hd : d < 16) :
    natToHex (16 * a + d) = natToHex a ++ [hexDigitChar d] := by
  rw [natToHex, dif_neg (by omega)]
  show natToHex ((16 * a + d) / 16) ++ [hexDigitChar ((16 * a + d) % 16)] = _
  have h1 : (16 * a + d) / 16 = a := by omega
  have h2 : (16 * a + d) % 16 = d := by omega
  rw [h1, h2]

lemma natToHex_one : natToHex 1 = ['1'] := by
  rw [natToHex, dif_pos (by omega)]
  decide

lemma natToHex_color (r g b : ℕ) (hr : r < 256) (hg : g < 256) (hb : b < 256) :
    natToHex (2 ^ 24 + r * 2 ^ 16 + g * 2 ^ 8 + b) =
      ['1', hexDigitChar (r / 16), hexDigitChar (r % 16), hexDigitChar (g / 16),
        hexDigitChar (g % 16), hexDigitChar (b / 16), hexDigitChar (b % 16)] := by
  have e1 : 2 ^ 24 + r * 2 ^ 16 + g * 2 ^ 8 + b =
      16 * (16 * (16 * (16 * (16 * (16 * 1 + r / 16) + r % 16) + g / 16) + g % 16) + b / 16) +
        b % 16 := by
    omega
  rw [e1,
    natToHex_mul_add _ _ (by omega) (by omega),
    natToHex_mul_add _ _ (by omega) (by omega),
    natToHex_mul_add _ _ (by omega) (by omega),
    natToHex_mul_add _ _ (by omega) (by omega),
    natToHex_mul_add _ _ (by omega) (by omega),
    natToHex_mul_add _ _ (by omega) (by omega),
    natToHex_one]
  rfl

lemma int_color_toNat (r g b : ℕ) :
    ((2 ^ 24 : ℤ) + (r : ℤ) * 2 ^ 16 + (g : ℤ) * 2 ^ 8 + (b : ℤ)).toNat =
      2 ^ 24 + r * 2 ^ 16 + g * 2 ^ 8 + b := by
  rw [show (2 ^ 24 : ℤ) + (r : ℤ) * 2 ^ 16 + (g : ℤ) * 2 ^ 8 + (b : ℤ) =
      ((2 ^ 24 + r * 2 ^ 16 + g * 2 ^ 8 + b : ℕ) : ℤ) by push_cast; ring]
  exact Int.toNat_natCast _

lemma jsRound_natCast (n : ℕ) : jsRound (n : ℚ) = (n : ℤ) := by
  unfold jsRound
  rw [Int.floor_eq_iff]
  constructor
  · norm_num
  · norm_num

lemma interp_channel_zero (a b' : ℕ) :
    jsRound ((a : ℚ) + ((b' : ℚ) - (a : ℚ)) * 0) = (a : ℤ) := by
  rw [show (a : ℚ) + ((b' : ℚ) - (a : ℚ)) * 0 = (a : ℚ) by ring]
  exact jsRound_natCast a

lemma interp_channel_one (a b' : ℕ) :
    jsRound ((a : ℚ) + ((b' : ℚ) - (a : ℚ)) * 1) = (b' : ℤ) := by
  rw [show (a : ℚ) + ((b' : ℚ) - (a : ℚ)) * 1 = (b' : ℚ) by ring]
  exact jsRound_natCast b'

lemma hexVal_roundtrip :
    ∀ c ∈ lowerHexDigits, hexVal c < 16 ∧ hexDigitChar (hexVal c) = c := by
  decide

lemma hex_channel {c1 c2 : Char} (h1 : isLowerHexDigit c1) (h2 : isLowerHexDigit c2) :
    hex2 c1 c2 < 256 ∧ hexDigitChar (hex2 c1 c2 / 16) = c1 ∧
      hexDigitChar (hex2 c1 c2 % 16) = c2 := by
  obtain ⟨hv1, hr1⟩ := hexVal_roundtrip c1 h1
  obtain ⟨hv2, hr2⟩ := hexVal_roundtrip c2 h2
  have hdiv : hex2 c1 c2 / 16 = hexVal c1 := by
    unfold hex2
    omega
  have hmod : hex2 c1 c2 % 16 = hexVal c2 := by
    unfold hex2
    omega
  refine ⟨by unfold hex2; omega, ?_, ?_⟩
  · rw [hdiv, hr1]
  · rw [hmod, hr2]

lemma stripFirstHash_hash (cs : List Char) : stripFirstHash ('#' :: cs) = cs := by
  simp [stripFirstHash]

lemma getD6_0 (x0 x1 x2 x3 x4 x5 : Char) : [x0, x1, x2, x3, x4, x5].getD 0 '0' = x0 := rfl
lemma getD6_1 (x0 x1 x2 x3 x4 x5 : Char) : [x0, x1, x2, x3, x4, x5].getD 1 '0' = x1 := rfl
lemma getD6_2 (x0 x1 x2 x3 x4 x5 : Char) : [x0, x1, x2, x3, x4, x5].getD 2 '0' = x2 := rfl
lemma getD6_3 (x0 x1 x2 x3 x4 x5 : Char) : [x0, x1, x2, x3, x4, x5].getD 3 '0' = x3 := rfl
lemma getD6_4 (x0 x1 x2 x3 x4 x5 : Char) : [x0, x1, x2, x3, x4, x5].getD 4 '0' = x4 := rfl
lemma getD6_5 (x0 x1 x2 x3 x4 x5 : Char) : [x0, x1, x2, x3, x4, x5].getD 5 '0' = x5 := rfl

/-- C10: on well-formed lowercase `#rrggbb` color strings,
`interpolateColor` is the identity at the endpoints: `t = 0` returns the
first color and `t = 1` the second. -/
theorem interpolateColor_endpoints (a b : String) (ha : IsHexColor a) (hb : IsHexColor b) :
    interpolateColor a b 0 = a ∧ interpolateColor a b 1 = b := by
  obtain ⟨c1, c2, c3, c4, c5, c6, hadata, hc1, hc2, hc3, hc4, hc5, hc6⟩ := ha
  obtain ⟨d1, d2, d3, d4, d5, d6, hbdata, hd1, hd2, hd3, hd4, hd5, hd6⟩ := hb
  obtain ⟨haR, haRd, haRm⟩ := hex_channel hc1 hc2
  obtain ⟨haG, haGd, haGm⟩ := hex_channel hc3 hc4
  obtain ⟨haB, haBd, haBm⟩ := hex_channel hc5 hc6
  obtain ⟨hbR, hbRd, hbRm⟩ := hex_channel hd1 hd2
  obtain ⟨hbG, hbGd, hbGm⟩ := hex_channel hd3 hd4
  obtain ⟨hbB, hbBd, hbBm⟩ := hex_channel hd5 hd6
  constructor
  · simp only [interpolateColor]
    rw [hadata, hbdata, stripFirstHash_hash, stripFirstHash_hash,
      getD6_0, getD6_1, getD6_2, getD6_3, getD6_4, getD6_5,
      getD6_0, getD6_1, getD6_2, getD6_3, getD6_4, getD6_5,
      interp_channel_zero, interp_channel_zero, interp_channel_zero,
      int_color_toNat, natToHex_color _ _ _ haR haG haB]
    rw [show (['1', hexDigitChar (hex2 c1 c2 / 16), hexDigitChar (hex2 c1 c2 % 16),
        hexDigitChar (hex2 c3 c4 / 16), hexDigitChar (hex2 c3 c4 % 16),
        hexDigitChar (hex2 c5 c6 / 16), hexDigitChar (hex2 c5 c6 % 16)].drop 1) =
      [hexDigitChar (hex2 c1 c2 / 16), hexDigitChar (hex2 c1 c2 % 16),
        hexDigitChar (hex2 c3 c4 / 16), hexDigitChar (hex2 c3 c4 % 16),
        hexDigitChar (hex2 c5 c6 / 16), hexDigitChar (hex2 c5 c6 % 16)] from rfl]
    rw [haRd, haRm, haGd, haGm, haBd, haBm, ← hadata]
  · simp only [interpolateColor]
    rw [hadata, hbdata, stripFirstHash_hash, stripFirstHash_hash,
      getD6_0, getD6_1, getD6_2, getD6_3, getD6_4, getD6_5,
      getD6_0, getD6_1, getD6_2, getD6_3, getD6_4, getD6_5,
      interp_channel_one, interp_channel_one, interp_channel_one,
      int_color_toNat, natToHex_color _ _ _ hbR hbG hbB]
    rw [show (['1', hexDigitChar (hex2 d1 d2 / 16), hexDigitChar (hex2 d1 d2 % 16),
        hexDigitChar (hex2 d3 d4 / 16), hexDigitChar (hex2 d3 d4 % 16),
        hexDigitChar (hex2 d5 d6 / 16), hexDigitChar (hex2 d5 d6 % 16)].drop 1) =
      [hexDigitChar (hex2 d1 d2 / 16), hexDigitChar (hex2 d1 d2 % 16),
        hexDigitChar (hex2 d3 d4 / 16), hexDigitChar (hex2 d3 d4 % 16),
        hexDigitChar (hex2 d5 d6 / 16), hexDigitChar (hex2 d5 d6 % 16)] from rfl]
    rw [hbRd, hbRm, hbGd, hbGm, hbBd, hbBm, ← hbdata]

theorem interpolateColor_endpoints_witness :
    IsHexColor "#f87171" ∧ IsHexColor "#a78bfa" ∧
      (interpolateColor "#f87171" "#a78bfa" 0 = "#f87171" ∧
        interpolateColor "#f87171" "#a78bfa" 1 = "#a78bfa") :=
  ⟨⟨'f', '8', '7', '1', '7', '1', by decide, by decide, by decide, by decide, by decide,
      by decide, by decide⟩,
    ⟨'a', '7', '8', 'b', 'f', 'a', by decide, by decide, by decide, by decide, by decide,
      by decide, by decide⟩,
    interpolateColor_endpoints "#f87171" "#a78bfa"
      ⟨'f', '8', '7', '1', '7', '1', by decide, by decide, by decide, by decide, by decide,
        by decide, by decide⟩
      ⟨'a', '7', '8', 'b', 'f', 'a', by decide, by decide, by decide, by decide, by decide,
        by decide, by decide⟩⟩
